import Mathlib

/-!
Shallow embedding of the `Coordination` and `Pairing` statistics of the
solvation-analysis package (`coordination.py`, `pairing.py`,
`_column_names.py`).

The solvation event table is modelled as a list of rows; a pandas
`groupby` over key columns is modelled by the finite set of distinct keys
(`groupKeys`) together with, per key, the rows of that group.  A pandas
`.count()` of a non-null column is the group size (`groupSize`), a
`.nunique()` is the cardinality of the image, `.sum()` over a grouped
series is a `Finset.sum` over the key set, and division is exact `ℚ`
division (the floating-point arithmetic of the source performed exactly).
-/

namespace SolvationAnalysis

/-- A row of the solvation event table: one (solute atom, solvent atom)
proximity event in one frame.  Fields follow the schema of
`_column_names.py`: `frame`, `solute_atom`, `atom_ix`, `dist`,
`solvent_name`, `res_ix`. -/
structure Row where
  frame : ℕ
  solute_atom : ℕ
  atom_ix : ℕ
  dist : ℚ
  solvent_name : String
  res_ix : ℕ
deriving DecidableEq

/-- Distinct keys of a pandas `groupby` with key function `k`. -/
def groupKeys {β α : Type} [DecidableEq α] (data : List β) (k : β → α) : Finset α :=
  (data.map k).toFinset

/-- Size of the group with key `key`: a pandas `.count()` of any non-null
column of that group. -/
def groupSize {β α : Type} [DecidableEq α] (data : List β) (k : β → α) (key : α) : ℕ :=
  (data.filter fun b => k b = key).length

lemma groupSize_nil {β α : Type} [DecidableEq α] (k : β → α) (key : α) :
    groupSize ([] : List β) k key = 0 := rfl

lemma groupSize_cons {β α : Type} [DecidableEq α] (b : β) (l : List β) (k : β → α) (key : α) :
    groupSize (b :: l) k key = (if k b = key then 1 else 0) + groupSize l k key := by
  simp only [groupSize, List.filter_cons]
  split <;> simp_all [Nat.add_comm]

/-- Summing group sizes over any superset of the realised keys, filtered by
a key predicate, counts the rows whose key satisfies the predicate. -/
lemma sum_groupSize_filter {β α : Type} [DecidableEq α] (data : List β) (k : β → α)
    (S : Finset α) (P : α → Prop) [DecidablePred P]
    (hS : ∀ b ∈ data, k b ∈ S) :
    ∑ key ∈ S.filter P, groupSize data k key =
      (data.filter fun b => P (k b)).length := by
  induction data with
  | nil => simp [groupSize_nil]
  | cons b l ih =>
    have hb : k b ∈ S := hS b (List.mem_cons_self b l)
    have hl : ∀ x ∈ l, k x ∈ S := fun x hx => hS x (List.mem_cons_of_mem b hx)
    simp only [groupSize_cons, Finset.sum_add_distrib, ih hl, List.filter_cons]
    have hsum : ∑ key ∈ S.filter P, (if k b = key then 1 else 0) =
        if P (k b) then 1 else 0 := by
      rw [Finset.sum_ite_eq (S.filter P) (k b) (fun _ => 1)]
      simp [Finset.mem_filter, hb]
    rw [hsum]
    by_cases hP : P (k b) <;> simp [hP, Nat.add_comm]

/-- Summing all group sizes over any superset of the realised keys
recovers the number of rows. -/
lemma sum_groupSize {β α : Type} [DecidableEq α] (data : List β) (k : β → α)
    (S : Finset α) (hS : ∀ b ∈ data, k b ∈ S) :
    ∑ key ∈ S, groupSize data k key = data.length := by
  have h := sum_groupSize_filter data k S (fun _ => True) hS
  simpa using h

/-- Mapping then deduplicating is deduplicating then imaging. -/
lemma toFinset_map {β α : Type} [DecidableEq α] [DecidableEq β] (l : List β) (f : β → α) :
    (l.map f).toFinset = l.toFinset.image f := by
  ext a; simp

/-- Filtering the realised keys by a predicate that mirrors a row predicate
gives the realised keys of the filtered rows. -/
lemma groupKeys_filter_eq {β α : Type} [DecidableEq α] (data : List β) (k : β → α)
    (P : α → Prop) [DecidablePred P] (q : β → Prop) [DecidablePred q]
    (hPq : ∀ b, P (k b) ↔ q b) :
    (groupKeys data k).filter P = groupKeys (data.filter fun b => q b) k := by
  ext a
  simp only [groupKeys, Finset.mem_filter, List.mem_toFinset, List.mem_map, List.mem_filter]
  constructor
  · rintro ⟨⟨b, hb, rfl⟩, hP⟩
    exact ⟨b, ⟨hb, by simpa using (hPq b).1 hP⟩, rfl⟩
  · rintro ⟨b, ⟨hb, hq⟩, rfl⟩
    exact ⟨⟨b, hb, rfl⟩, (hPq b).2 (by simpa using hq)⟩

/-- When the key of every row factors injectively through a smaller key,
the realised key sets have the same cardinality. -/
lemma groupKeys_card_eq {β α γ : Type} [DecidableEq α] [DecidableEq β] [DecidableEq γ]
    (data : List β) (k : β → α) (k' : β → γ) (g : γ → α)
    (hg : Function.Injective g) (h : ∀ b ∈ data, k b = g (k' b)) :
    (groupKeys data k).card = (groupKeys data k').card := by
  have hmap : data.map k = (data.map k').map g := by
    rw [List.map_map]
    exact List.map_congr_left h
  rw [groupKeys, groupKeys, hmap, toFinset_map, Finset.card_image_of_injective _ hg]

/-- Every realised key names a nonempty group. -/
lemma groupSize_pos_of_mem {β α : Type} [DecidableEq α] (data : List β) (k : β → α)
    {key : α} (hkey : key ∈ groupKeys data k) : groupSize data k key ≠ 0 := by
  simp only [groupKeys, List.mem_toFinset, List.mem_map] at hkey
  obtain ⟨b, hb, rfl⟩ := hkey
  simp only [groupSize, ne_eq, List.length_eq_zero]
  intro hnil
  have : b ∈ data.filter fun x => k x = k b := by
    simp [List.mem_filter, hb]
  simp [hnil] at this

/-! ### The shared grouping key

Both `Coordination._mean_cn` (labels `["frame", "solvated_atom", "res_name"]`)
and `Pairing._fraction_coordinated` (labels `[FRAME, SOLVATED_ATOM,
SOLVENT_NAME]`, i.e. `["frame", "solute_atom", "solvent_name"]`) group the
event table by its frame, solute-atom and solvent-species columns; on a
table laid out as `Row` both keys are `eventKey`.  The *label* mismatch
between the two modules is modelled separately below for the schema
claims. -/

/-- Grouping key `(frame, solute atom, solvent species)` of the first
groupby of `_mean_cn` and of `_fraction_coordinated`. -/
def eventKey (r : Row) : ℕ × ℕ × String := (r.frame, r.solute_atom, r.solvent_name)

/-- Projection onto `(species, frame)` used by the second groupby of
`_mean_cn` (`["res_name", "frame"]`) and of `_fraction_coordinated`
(`[SOLVENT_NAME, FRAME]`). -/
def snf (k : ℕ × ℕ × String) : String × ℕ := (k.2.2, k.1)

/-- Frames in which species `s` has at least one event: the realised frame
index of any per-`(species, frame)` series restricted to `s`. -/
def speciesFrames (data : List Row) (s : String) : Finset ℕ :=
  ((data.filter fun r => r.solvent_name = s).map Row.frame).toFinset

/-- Species realised in the event table. -/
def speciesOf (data : List Row) : Finset String :=
  (data.map Row.solvent_name).toFinset

lemma eventKey_mem (data : List Row) {r : Row} (hr : r ∈ data) :
    eventKey r ∈ groupKeys data eventKey := by
  simp only [groupKeys, List.mem_toFinset, List.mem_map]
  exact ⟨r, hr, rfl⟩

/-- Restricting the realised `(species, frame)` pairs to one species gives
exactly the frames of that species. -/
lemma seriesKeys_filter_eq_image (data : List Row) (s : String) :
    ((groupKeys data eventKey).image snf).filter (fun sf => sf.1 = s) =
      (speciesFrames data s).image fun f => (s, f) := by
  ext sf
  obtain ⟨s', f⟩ := sf
  simp only [Finset.mem_filter, Finset.mem_image, groupKeys, speciesFrames,
    List.mem_toFinset, List.mem_map, List.mem_filter]
  constructor
  · rintro ⟨⟨k, ⟨r, hr, rfl⟩, hsnf⟩, hs⟩
    simp only [snf, eventKey, Prod.mk.injEq] at hsnf hs
    exact ⟨f, ⟨r, ⟨hr, by simp [hsnf.1, hs]⟩, hsnf.2⟩, by simp [hs]⟩
  · rintro ⟨f', ⟨r, ⟨hr, hname⟩, hframe⟩, heq⟩
    simp only [Prod.mk.injEq] at heq
    refine ⟨⟨eventKey r, ⟨r, hr, rfl⟩, ?_⟩, heq.1.symm⟩
    simp only [snf, eventKey, Prod.mk.injEq]
    simp only [decide_eq_true_eq] at hname
    exact ⟨by rw [hname, heq.1], by rw [hframe, heq.2]⟩

/-! ### Coordination (`coordination.py`, lines 98-105)

```
counts = self.solvation_data.groupby(["frame", "solvated_atom", "res_name"]).count()["res_ix"]
cn_series = counts.groupby(["res_name", "frame"]).sum() / (self.n_solutes * self.n_frames)
cn_by_frame = cn_series.unstack()
cn_dict = cn_series.groupby(["res_name"]).sum().to_dict()
```
-/

/-- Realised keys of `_mean_cn`'s `counts` series. -/
def cnKeys (data : List Row) : Finset (ℕ × ℕ × String) := groupKeys data eventKey

/-- `counts`: rows per `(frame, solvated_atom, res_name)` group (the
`.count()["res_ix"]` of a group is its size). -/
def cnCounts (data : List Row) (k : ℕ × ℕ × String) : ℕ := groupSize data eventKey k

/-- Realised `(res_name, frame)` index of `cn_series`. -/
def cnSeriesKeys (data : List Row) : Finset (String × ℕ) := (cnKeys data).image snf

/-- `cn_series`: the grouped sum of `counts` over `(res_name, frame)`,
divided by `n_solutes * n_frames`. -/
def cn_series (data : List Row) (n_frames n_solutes : ℕ) (sf : String × ℕ) : ℚ :=
  ((∑ k ∈ (cnKeys data).filter fun k => snf k = sf, cnCounts data k : ℕ) : ℚ) /
    (n_solutes * n_frames)

/-- `cn_by_frame = cn_series.unstack()`: the entry of species `s` at frame `f`. -/
def cn_by_frame (data : List Row) (n_frames n_solutes : ℕ) (s : String) (f : ℕ) : ℚ :=
  cn_series data n_frames n_solutes (s, f)

/-- `cn_dict`: per species, the sum of `cn_series` over its frames. -/
def cn_dict (data : List Row) (n_frames n_solutes : ℕ) (s : String) : ℚ :=
  ∑ sf ∈ (cnSeriesKeys data).filter fun sf => sf.1 = s,
    cn_series data n_frames n_solutes sf

/-- The grouped numerator of `cn_series` at `(s, f)` is the raw number of
rows of species `s` in frame `f`. -/
lemma cn_series_eq (data : List Row) (n_frames n_solutes : ℕ) (s : String) (f : ℕ) :
    cn_series data n_frames n_solutes (s, f) =
      ((data.filter fun r => r.solvent_name = s ∧ r.frame = f).length : ℚ) /
        (n_solutes * n_frames) := by
  unfold cn_series cnCounts cnKeys
  congr 2
  rw [sum_groupSize_filter data eventKey (groupKeys data eventKey)
    (fun k => snf k = (s, f)) (fun r hr => eventKey_mem data hr)]
  congr 1
  apply List.filter_congr
  intro r _
  simp [eventKey, snf, Prod.ext_iff, and_comm]

/-- Collapsing the two grouped sums of `_mean_cn`: `cn_dict` at `s` is the
total number of rows of species `s` over `n_solutes * n_frames`. -/
lemma cn_dict_eq (data : List Row) (n_frames n_solutes : ℕ) (s : String) :
    cn_dict data n_frames n_solutes s =
      ((data.filter fun r => r.solvent_name = s).length : ℚ) /
        (n_solutes * n_frames) := by
  unfold cn_dict cnSeriesKeys cnKeys
  rw [seriesKeys_filter_eq_image data s, Finset.sum_image
    (fun f _ f' _ h => by simpa using (Prod.mk.injEq s f s f').mp h)]
  have hterm : ∀ f ∈ speciesFrames data s,
      cn_series data n_frames n_solutes (s, f) =
        ((groupSize (data.filter fun r => r.solvent_name = s) Row.frame f : ℕ) : ℚ) /
          (n_solutes * n_frames) := by
    intro f _
    rw [cn_series_eq]
    congr 2
    simp only [groupSize, List.filter_filter]
    congr 1
    apply List.filter_congr
    intro r _
    simp [Bool.and_comm]
  rw [Finset.sum_congr rfl hterm, ← Finset.sum_div]
  congr 1
  rw [← Nat.cast_sum]
  congr 1
  exact sum_groupSize (data.filter fun r => r.solvent_name = s) Row.frame
    (speciesFrames data s) (fun r hr => by
      simp only [speciesFrames, List.mem_toFinset, List.mem_map]
      exact ⟨r, hr, rfl⟩)

/-! ### Pairing (`pairing.py`, lines 109-137)

`_fraction_coordinated` (lines 109-118):
```
counts = self.solvation_data.groupby([FRAME, SOLVATED_ATOM, SOLVENT_NAME]).count()[RES_IX]
pairing_series = counts.astype(bool).groupby([SOLVENT_NAME, FRAME]).sum() / (self.n_solutes)
pairing_by_frame = pairing_series.unstack()
pairing_normalized = pairing_series / self.n_frames
pairing_dict = pairing_normalized.groupby([SOLVENT_NAME]).sum().to_dict()
```
-/

/-- Realised keys of `_fraction_coordinated`'s `counts` series. -/
def pairKeys (data : List Row) : Finset (ℕ × ℕ × String) := groupKeys data eventKey

/-- `pairing_series`: grouped sum of the boolean-coerced counts over
`(solvent_name, frame)`, divided by `n_solutes`.  `astype(bool)` sends a
nonzero count to `True`, summed as `1`. -/
def pairing_series (data : List Row) (n_solutes : ℕ) (sf : String × ℕ) : ℚ :=
  (∑ k ∈ (pairKeys data).filter fun k => snf k = sf,
    if groupSize data eventKey k ≠ 0 then (1 : ℚ) else 0) / n_solutes

/-- `pairing_by_frame = pairing_series.unstack()`: entry of species `s` at
frame `f`. -/
def pairing_by_frame (data : List Row) (n_solutes : ℕ) (s : String) (f : ℕ) : ℚ :=
  pairing_series data n_solutes (s, f)

/-- Realised `(solvent_name, frame)` index of `pairing_series`. -/
def pairSeriesKeys (data : List Row) : Finset (String × ℕ) := (pairKeys data).image snf

/-- `pairing_normalized = pairing_series / n_frames`. -/
def pairing_normalized (data : List Row) (n_frames n_solutes : ℕ) (sf : String × ℕ) : ℚ :=
  pairing_series data n_solutes sf / n_frames

/-- `pairing_dict`: per species, the sum of `pairing_normalized` over its
frames. -/
def pairing_dict (data : List Row) (n_frames n_solutes : ℕ) (s : String) : ℚ :=
  ∑ sf ∈ (pairSeriesKeys data).filter fun sf => sf.1 = s,
    pairing_normalized data n_frames n_solutes sf

/-- Number of distinct solute atoms with at least one event of species `s`
in frame `f`. -/
def pairedSolutes (data : List Row) (s : String) (f : ℕ) : ℕ :=
  ((data.filter fun r => r.frame = f ∧ r.solvent_name = s).map Row.solute_atom).toFinset.card

/-- The boolean-coerced grouped sum of `pairing_series` at `(s, f)` counts
the distinct solute atoms paired with `s` in `f`. -/
lemma pairing_series_eq (data : List Row) (n_solutes : ℕ) (s : String) (f : ℕ) :
    pairing_series data n_solutes (s, f) = (pairedSolutes data s f : ℚ) / n_solutes := by
  unfold pairing_series pairKeys
  congr 1
  have hone : ∀ k ∈ (groupKeys data eventKey).filter fun k => snf k = (s, f),
      (if groupSize data eventKey k ≠ 0 then (1 : ℚ) else 0) = 1 := fun k hk =>
    if_pos (groupSize_pos_of_mem data eventKey (Finset.mem_filter.mp hk).1)
  rw [Finset.sum_congr rfl hone, Finset.sum_const, nsmul_eq_mul, mul_one]
  rw [groupKeys_filter_eq data eventKey (fun k => snf k = (s, f))
    (fun r => r.frame = f ∧ r.solvent_name = s)
    (fun r => by simp [eventKey, snf, Prod.ext_iff, and_comm])]
  have hcard := groupKeys_card_eq
    (data.filter fun r => r.frame = f ∧ r.solvent_name = s)
    eventKey Row.solute_atom (fun a => (f, a, s))
    (fun a a' h => by simpa using h)
    (fun r hr => by
      simp only [List.mem_filter, decide_eq_true_eq] at hr
      simp [eventKey, hr.2.1, hr.2.2])
  exact_mod_cast hcard

/-!
`_fraction_free_solvent` (lines 120-126):
```
counts = self.solvation_data.groupby([FRAME, RES_IX, SOLVENT_NAME]).count()[DISTANCE]
totals = counts.groupby([SOLVENT_NAME]).count() / self.n_frames
n_solvents = np.array([self.solvent_counts[name] for name in totals.index.values])
free_solvents = np.ones(len(totals)) - totals / n_solvents
```
-/

/-- Grouping key `(frame, res_ix, solvent_name)` of `_fraction_free_solvent`. -/
def freeKey (r : Row) : ℕ × ℕ × String := (r.frame, r.res_ix, r.solvent_name)

/-- `totals`: the number of realised `(frame, res_ix)` groups of species
`s` (one per coordinating residue per frame) divided by `n_frames`. -/
def totals (data : List Row) (n_frames : ℕ) (s : String) : ℚ :=
  ((((groupKeys data freeKey).filter fun k => k.2.2 = s).card : ℕ) : ℚ) / n_frames

/-- Entry of `free_solvents = 1 - totals / n_solvents` for species `s`,
whose population is `pop s`. -/
def fraction_free_solvents (data : List Row) (n_frames : ℕ) (pop : String → ℤ)
    (s : String) : ℚ :=
  1 - totals data n_frames s / (pop s : ℚ)

/-- Species of the event table in first-occurrence order: the index of the
`totals` series. -/
def speciesList (data : List Row) : List String := (data.map Row.solvent_name).dedup

/-- The returned `free_solvents.to_dict()` as an association list: one
entry per species realised in the event table. -/
def free_solvents_dict (data : List Row) (n_frames : ℕ) (pop : String → ℤ) :
    List (String × ℚ) :=
  (speciesList data).map fun s => (s, fraction_free_solvents data n_frames pop s)

/-- Number of distinct `(frame, residue)` coordinating pairs of species
`s` across the table. -/
def coordResidueFrames (data : List Row) (s : String) : ℕ :=
  ((data.filter fun r => r.solvent_name = s).map fun r => (r.frame, r.res_ix)).toFinset.card

/-- The grouped `counts.groupby([SOLVENT_NAME]).count()` of species `s` is
its number of distinct `(frame, residue)` coordinating pairs. -/
lemma totals_eq (data : List Row) (n_frames : ℕ) (s : String) :
    totals data n_frames s = (coordResidueFrames data s : ℚ) / n_frames := by
  unfold totals
  congr 2
  rw [groupKeys_filter_eq data freeKey (fun k => k.2.2 = s)
    (fun r => r.solvent_name = s) (fun r => by simp [freeKey])]
  exact groupKeys_card_eq (data.filter fun r => r.solvent_name = s)
    freeKey (fun r => (r.frame, r.res_ix)) (fun p => (p.1, p.2, s))
    (fun p p' h => by
      obtain ⟨p1, p2⟩ := p
      obtain ⟨p1', p2'⟩ := p'
      simpa using h)
    (fun r hr => by
      simp only [List.mem_filter, decide_eq_true_eq] at hr
      simp [freeKey, hr.2])

/-!
`_diluent_composition` (lines 128-137):
```
coordinated_solvents = self.solvation_data.groupby([FRAME, SOLVENT_NAME]).nunique()[RES_IX]
solvent_counts = pd.Series(self.solvent_counts)
total_solvents = solvent_counts.reindex(coordinated_solvents.index, level=1)
diluent_solvents = total_solvents - coordinated_solvents
diluent_series = diluent_solvents / diluent_solvents.groupby([FRAME]).sum()
diluent_by_frame = diluent_series.unstack().T
diluent_counts = diluent_solvents.unstack().T
diluent_dict = diluent_by_frame.mean(axis=1).to_dict()
```
-/

/-- Grouping key `(frame, solvent_name)` of `_diluent_composition`. -/
def dilKey (r : Row) : ℕ × String := (r.frame, r.solvent_name)

/-- Realised `(frame, species)` pairs: the index of `coordinated_solvents`. -/
def dilKeys (data : List Row) : Finset (ℕ × String) := groupKeys data dilKey

/-- `coordinated_solvents`: the `.nunique()[RES_IX]` of a group, i.e. its
number of distinct coordinated residues. -/
def coordinated_solvents (data : List Row) (fs : ℕ × String) : ℕ :=
  ((data.filter fun r => dilKey r = fs).map Row.res_ix).toFinset.card

/-- `diluent_solvents = total_solvents - coordinated_solvents`, an integer
per realised `(frame, species)` pair; `pop` is the externally supplied
`n_solvents` population mapping. -/
def diluent_solvents (data : List Row) (pop : String → ℤ) (fs : ℕ × String) : ℤ :=
  pop fs.2 - (coordinated_solvents data fs : ℤ)

/-- Per-frame normalizer `diluent_solvents.groupby([FRAME]).sum()`. -/
def diluentFrameTotal (data : List Row) (pop : String → ℤ) (f : ℕ) : ℤ :=
  ∑ fs ∈ (dilKeys data).filter fun fs => fs.1 = f, diluent_solvents data pop fs

/-- `diluent_series`: each diluent count divided by its frame's total. -/
def diluent_series (data : List Row) (pop : String → ℤ) (fs : ℕ × String) : ℚ :=
  (diluent_solvents data pop fs : ℚ) / (diluentFrameTotal data pop fs.1 : ℚ)

/-- Entry of `diluent_by_frame = diluent_series.unstack().T` for species
`s` at frame `f`. -/
def diluent_by_frame (data : List Row) (pop : String → ℤ) (s : String) (f : ℕ) : ℚ :=
  diluent_series data pop (f, s)

/-- `diluent_dict = diluent_by_frame.mean(axis=1)`: the pandas row mean
skips the missing (NaN) frames of a species, hence averages over the
frames in which the species has at least one event. -/
def diluent_dict (data : List Row) (pop : String → ℤ) (s : String) : ℚ :=
  (∑ f ∈ speciesFrames data s, diluent_by_frame data pop s f) /
    ((speciesFrames data s).card : ℚ)

/-! ### Coordinating atom types (`coordination.py`, lines 107-129)

```
atom_types = self.solvation_data.reset_index(['atom_ix'])
atom_types['atom_type'] = self.atom_group[atom_types['atom_ix']].types
atoms_by_type = atom_types[['atom_type', 'res_name', 'atom_ix']]
type_counts = atoms_by_type.groupby(['res_name', 'atom_type']).count()
solvent_counts = type_counts.groupby(['res_name']).sum()['atom_ix']
solvent_counts_list = [solvent_counts[solvent] for solvent in type_counts.index.get_level_values(0)]
type_percents = type_counts['atom_ix'] / solvent_counts_list
return type_percents[type_percents.percent > tol]
```
`types` models the external `atom_group[...].types` lookup from a solvent
atom index to its atom-type label.
-/

/-- Grouping key `(res_name, atom_type)` of `_calculate_coordinating_atoms`,
after the atom-type column is resolved through the lookup. -/
def typeKey (types : ℕ → String) (r : Row) : String × String :=
  (r.solvent_name, types r.atom_ix)

/-- Realised `(species, atom_type)` pairs: the index of `type_counts`. -/
def typeKeys (data : List Row) (types : ℕ → String) : Finset (String × String) :=
  groupKeys data (typeKey types)

/-- `type_counts`: rows per `(res_name, atom_type)` group. -/
def type_counts (data : List Row) (types : ℕ → String) (st : String × String) : ℕ :=
  groupSize data (typeKey types) st

/-- `solvent_counts`: grouped sum of `type_counts` per species. -/
def solvent_counts (data : List Row) (types : ℕ → String) (s : String) : ℕ :=
  ∑ st ∈ (typeKeys data types).filter fun st => st.1 = s, type_counts data types st

/-- `type_percents`: each type count over its species total. -/
def type_percents (data : List Row) (types : ℕ → String) (st : String × String) : ℚ :=
  (type_counts data types st : ℚ) / (solvent_counts data types st.1 : ℚ)

/-- Default of the `tol` parameter of `_calculate_coordinating_atoms`. -/
def default_tol : ℚ := 5 / 1000

/-- `type_percents[type_percents.percent > tol]`: the retained
`(species, atom_type)` index of `coordinating_atoms`. -/
def coordinating_atoms (data : List Row) (types : ℕ → String) (tol : ℚ) :
    Finset (String × String) :=
  (typeKeys data types).filter fun st => type_percents data types st > tol

/-- The species total of `type_counts` is the raw row count of that
species. -/
lemma solvent_counts_eq (data : List Row) (types : ℕ → String) (s : String) :
    solvent_counts data types s = (data.filter fun r => r.solvent_name = s).length := by
  unfold solvent_counts type_counts typeKeys
  rw [sum_groupSize_filter data (typeKey types) (groupKeys data (typeKey types))
    (fun st => st.1 = s)
    (fun r hr => by
      simp only [groupKeys, List.mem_toFinset, List.mem_map]
      exact ⟨r, hr, rfl⟩)]
  congr 1

/-- The count of a realised `(species, atom_type)` group is the number of
rows of that species whose solvent atom resolves to that type. -/
lemma type_counts_eq (data : List Row) (types : ℕ → String) (st : String × String) :
    type_counts data types st =
      (data.filter fun r => r.solvent_name = st.1 ∧ types r.atom_ix = st.2).length := by
  unfold type_counts groupSize
  congr 1
  apply List.filter_congr
  intro r _
  simp [typeKey, Prod.ext_iff]

/-! ### Column labels (`_column_names.py` lines 12-20, and the labels the
two modules pass to `groupby`)

`pairing.py` star-imports `_column_names` and groups by its constants;
`coordination.py` imports only pandas and hardcodes its own label strings
in `_mean_cn`.  A pandas `groupby` (or column selection) raises a
`KeyError` when a requested label is neither a column nor an index level
of the frame. -/

def FRAME : String := "frame"

def SOLVATED_ATOM : String := "solute_atom"

def ATOM_IX : String := "atom_ix"

def DISTANCE : String := "dist"

def SOLVENT_NAME : String := "solvent_name"

def RES_IX : String := "res_ix"

/-- Labels of the solvation event table, per `_column_names.py`. -/
def solvationDataColumns : List String :=
  [FRAME, SOLVATED_ATOM, ATOM_IX, DISTANCE, SOLVENT_NAME, RES_IX]

/-- Labels hardcoded by `Coordination._mean_cn`'s first groupby (line 99). -/
def meanCnGroupLabels : List String := ["frame", "solvated_atom", "res_name"]

/-- Labels of `Pairing._fraction_coordinated`'s groupby (line 111). -/
def fractionCoordinatedGroupLabels : List String := [FRAME, SOLVATED_ATOM, SOLVENT_NAME]

/-- Labels of `Pairing._fraction_free_solvent`'s groupby (line 122). -/
def fractionFreeGroupLabels : List String := [FRAME, RES_IX, SOLVENT_NAME]

/-- Labels of `Pairing._diluent_composition`'s groupby (line 129). -/
def diluentGroupLabels : List String := [FRAME, SOLVENT_NAME]

/-- Column labels `Pairing` selects after grouping (`RES_IX` at line 111,
`DISTANCE` at line 122, `RES_IX` at line 129). -/
def pairingSelectedLabels : List String := [RES_IX, DISTANCE]

/-- Label resolution of a pandas groupby or selection: it succeeds only
when every requested label exists in the frame. -/
def groupbyKeyCheck (cols keys : List String) : Except String Unit :=
  if keys.all fun k => cols.contains k then Except.ok () else Except.error "KeyError"

/-! ### In-place effects of construction

The only column assignment in either module is
`atom_types['atom_type'] = ...` inside `_calculate_coordinating_atoms`
(line 114), and its receiver `atom_types` is the fresh frame returned by
`solvation_data.reset_index(['atom_ix'])` on line 113 (pandas
`reset_index` with its default `inplace=False` returns a new frame).
Every other operation of both constructors (`groupby`, `count`, `sum`,
`nunique`, `unstack`, arithmetic, boolean filtering) returns new
objects.  The heap of live dataframes is modelled explicitly: a frame is
a list of rows with an optional added `atom_type` column, and the input
`solvation_data` lives at address 0. -/

/-- Heap of dataframes: address `i` holds the `i`-th allocated frame. -/
structure PdHeap where
  frames : List (List (Row × Option String))
deriving DecidableEq

/-- Read the frame at address `i`. -/
def readFrame (h : PdHeap) (i : ℕ) : List (Row × Option String) := h.frames.getD i []

/-- Allocate a new frame, returning its address (any frame-returning
pandas call). -/
def allocFrame (h : PdHeap) (t : List (Row × Option String)) : PdHeap × ℕ :=
  (⟨h.frames ++ [t]⟩, h.frames.length)

/-- `reset_index(['atom_ix'])` with the default `inplace=False`: copy the
frame at `i` into a newly allocated frame. -/
def resetIndexCopy (h : PdHeap) (i : ℕ) : PdHeap × ℕ := allocFrame h (readFrame h i)

/-- Column assignment `df['atom_type'] = atom_group[df['atom_ix']].types`:
an in-place write to the frame at address `i`. -/
def setAtomTypeColumn (h : PdHeap) (i : ℕ) (types : ℕ → String) : PdHeap :=
  ⟨h.frames.set i ((readFrame h i).map fun rc => (rc.1, some (types rc.1.atom_ix)))⟩

/-- Heap effect of constructing `Coordination` from the event table at
address 0: `_mean_cn` only groups and aggregates, and
`_calculate_coordinating_atoms` copies via `reset_index` and then writes
the atom-type column into the copy. -/
def coordinationConstructHeap (data : List Row) (types : ℕ → String) : PdHeap :=
  let h0 : PdHeap := ⟨[data.map fun r => (r, none)]⟩
  let hi := resetIndexCopy h0 0
  setAtomTypeColumn hi.1 hi.2 types

/-- Heap effect of constructing `Pairing` from the event table at address
0: its three statistics only group and aggregate; nothing writes to any
frame. -/
def pairingConstructHeap (data : List Row) : PdHeap :=
  let h0 : PdHeap := ⟨[data.map fun r => (r, none)]⟩
  h0

/-- Lookup misses on an association list built over keys not containing
`s`. -/
lemma lookup_map_eq_none {β : Type} (l : List String) (g : String → β) (s : String)
    (hs : s ∉ l) : (l.map fun t => (t, g t)).lookup s = none := by
  induction l with
  | nil => rfl
  | cons a l ih =>
    simp only [List.mem_cons, not_or] at hs
    have hne : (s == a) = false := beq_eq_false_iff_ne.mpr hs.1
    simp only [List.map_cons, List.lookup, hne]
    exact ih hs.2

/-! ### Concrete example tables used by the witnesses -/

/-- One frame, two solutes, species `A` with residues 1 and 2: solute 0
touches residues 1 and 2, solute 1 touches residue 1. -/
def exData : List Row :=
  [⟨0, 0, 10, 0, "A", 1⟩, ⟨0, 0, 11, 0, "A", 2⟩, ⟨0, 1, 12, 0, "A", 1⟩]

/-- A single event of species `A`. -/
def exData1 : List Row := [⟨0, 0, 10, 0, "A", 1⟩]

/-- One frame with one event of species `A` and one of species `B`. -/
def exData2 : List Row := [⟨0, 0, 10, 0, "A", 1⟩, ⟨0, 1, 11, 0, "B", 2⟩]

/-- Population counts: 3 residues of `A`, 5 of `B`, none of anything else. -/
def exPop : String → ℤ := fun s => if s = "A" then 3 else if s = "B" then 5 else 0

/-- Population counts: 3 residues of `A`, none of anything else. -/
def exPopA : String → ℤ := fun s => if s = "A" then 3 else 0

/-! ### Claims -/

/-- C1: for every solvation event table and `n_frames ≥ 1`,
`n_solutes ≥ 1`, `cn_dict` maps each species `s` to the grouped row-count
pipeline of `_mean_cn`, which collapses to
(number of rows of species `s`) / (`n_solutes` * `n_frames`): the rows
are raw proximity events, not distinct residues. -/
theorem cn_dict_event_count_normalization (data : List Row) (n_frames n_solutes : ℕ)
    (s : String) (_hnf : 1 ≤ n_frames) (_hns : 1 ≤ n_solutes) :
    cn_dict data n_frames n_solutes s =
      ((data.filter fun r => r.solvent_name = s).length : ℚ) /
        (n_solutes * n_frames) :=
  cn_dict_eq data n_frames n_solutes s

/-- Witness for C1 on the concrete table `exData` (3 events of `A`, 2
solutes, 1 frame): the mean coordination number is 3/2. -/
theorem cn_dict_event_count_normalization_witness :
    1 ≤ 1 ∧ 1 ≤ 2 ∧ cn_dict exData 1 2 "A" = 3 / 2 := by
  refine ⟨le_refl 1, by norm_num, ?_⟩
  have h := cn_dict_event_count_normalization exData 1 2 "A" (le_refl 1) (by norm_num)
  have hl : ((exData.filter fun r => r.solvent_name = "A").length : ℚ) = 3 := by
    norm_num [exData]
  rw [h, hl]
  norm_num

/-- C2 counterexample: on a table with a single event of species `A` in
frame 0, with `n_frames = 2` and `n_solutes = 1`, the `cn_by_frame` entry
is 1/2, not the claimed per-frame value (row count summed over solute
atoms divided by `n_solutes` alone), which is 1. -/
theorem cn_by_frame_counterexample :
    cn_by_frame exData1 2 1 "A" 0 ≠
      ((exData1.filter fun r => r.solvent_name = "A" ∧ r.frame = 0).length : ℚ) / 1 := by
  have h := cn_series_eq exData1 2 1 "A" 0
  have hl : ((exData1.filter fun r => r.solvent_name = "A" ∧ r.frame = 0).length : ℚ) = 1 := by
    norm_num [exData1]
  rw [cn_by_frame, h, hl]
  norm_num

/-- C2 amended: the `cn_by_frame` entry for species `s` at frame `f` is
the per-frame row count summed over solute atoms divided by
`n_solutes * n_frames` — the series is normalized by both factors before
it is unstacked, so `cn_by_frame` additionally carries the `1/n_frames`
factor. -/
theorem cn_by_frame_normalized_by_both (data : List Row) (n_frames n_solutes : ℕ)
    (s : String) (f : ℕ) :
    cn_by_frame data n_frames n_solutes s f =
      ((data.filter fun r => r.solvent_name = s ∧ r.frame = f).length : ℚ) /
        (n_solutes * n_frames) :=
  cn_series_eq data n_frames n_solutes s f

/-- C3: `pairing_dict` at species `s` is the mean over frames of the
per-frame paired fraction, and each per-frame fraction is the number of
distinct solute atoms with at least one event of `s` in that frame
(boolean presence, not event count) divided by `n_solutes`;
`pairing_by_frame` holds these per-frame fractions before the division by
`n_frames`. -/
theorem pairing_dict_mean_paired_fraction (data : List Row) (n_frames n_solutes : ℕ)
    (s : String) :
    pairing_dict data n_frames n_solutes s =
      (∑ f ∈ speciesFrames data s, pairing_by_frame data n_solutes s f) / n_frames ∧
    ∀ f, pairing_by_frame data n_solutes s f = (pairedSolutes data s f : ℚ) / n_solutes := by
  constructor
  · unfold pairing_dict pairing_normalized pairSeriesKeys pairKeys
    rw [seriesKeys_filter_eq_image data s,
      Finset.sum_image fun f _ f' _ h => by simpa using h,
      Finset.sum_div]
    rfl
  · intro f
    exact pairing_series_eq data n_solutes s f

/-- C4 counterexample: with population counts `exPopA` (species `B` has
population 0) and the event table `exData1` (only `A` events), the
`free_solvents` dict of `_fraction_free_solvent` has no entry for `B` at
all — `B` is not "treated as having free fraction 0". -/
theorem zero_population_counterexample :
    exPopA "B" = 0 ∧
      (free_solvents_dict exData1 1 exPopA).lookup "B" ≠ some 0 := by
  constructor
  · decide
  · decide

/-- C4 amended: a species `s` with population 0 has no residues and hence
no events (consistency hypothesis `hcons`), so constructing `Pairing`
performs no division by `s`'s zero population: `s` is absent from the
`totals` index, absent from the returned free-solvent dict (rather than
present with value 0), every population denominator actually used is
nonzero, and `s` is excluded from every frame's diluent normalization. -/
theorem zero_population_species_excluded (data : List Row) (n_frames : ℕ)
    (pop : String → ℤ) (s : String)
    (hcons : ∀ r ∈ data, pop r.solvent_name ≠ 0) (hzero : pop s = 0) :
    s ∉ speciesOf data ∧
    (free_solvents_dict data n_frames pop).lookup s = none ∧
    (∀ t ∈ speciesOf data, (pop t : ℚ) ≠ 0) ∧
    ∀ f, (f, s) ∉ dilKeys data := by
  have hnotin : s ∉ speciesOf data := by
    intro hmem
    simp only [speciesOf, List.mem_toFinset, List.mem_map] at hmem
    obtain ⟨r, hr, hname⟩ := hmem
    exact hcons r hr (by rw [hname, hzero])
  refine ⟨hnotin, ?_, ?_, ?_⟩
  · apply lookup_map_eq_none
    intro hmem
    apply hnotin
    simp only [speciesOf, List.mem_toFinset]
    simpa [speciesList, List.mem_dedup] using hmem
  · intro t hmem
    simp only [speciesOf, List.mem_toFinset, List.mem_map] at hmem
    obtain ⟨r, hr, hname⟩ := hmem
    have hne : pop t ≠ 0 := by
      rw [← hname]
      exact hcons r hr
    exact fun h => hne (by exact_mod_cast h)
  · intro f hmem
    simp only [dilKeys, groupKeys, List.mem_toFinset, List.mem_map] at hmem
    obtain ⟨r, hr, hkey⟩ := hmem
    apply hcons r hr
    have hname : r.solvent_name = s := congrArg Prod.snd hkey
    rw [hname, hzero]

/-- Witness for C4 on the concrete table `exData1` and populations
`exPopA`: species `B` has population 0, is absent from the table's
species, missing from the free-solvent dict, and frame 0's diluent
normalization excludes it. -/
theorem zero_population_species_excluded_witness :
    exPopA "B" = 0 ∧ "B" ∉ speciesOf exData1 ∧
      (free_solvents_dict exData1 1 exPopA).lookup "B" = none ∧
      (0, "B") ∉ dilKeys exData1 :=
  ⟨by decide,
   (zero_population_species_excluded exData1 1 exPopA "B" (by decide) (by decide)).1,
   (zero_population_species_excluded exData1 1 exPopA "B" (by decide) (by decide)).2.1,
   (zero_population_species_excluded exData1 1 exPopA "B" (by decide) (by decide)).2.2.2 0⟩

/-- C5: in any frame `f` whose diluent total is nonzero, the
`diluent_by_frame` fractions over the species realised in `f` sum to
exactly 1 (so certainly within 1e-9), where each species' diluent count is
its population minus its number of distinct coordinated residues in `f`;
and `diluent_dict` averages the per-frame fractions of each species over
the frames in which it appears. -/
theorem diluent_fractions_sum_to_one (data : List Row) (pop : String → ℤ) (f : ℕ)
    (h : diluentFrameTotal data pop f ≠ 0) :
    (∑ fs ∈ (dilKeys data).filter fun fs => fs.1 = f,
        diluent_by_frame data pop fs.2 fs.1) = 1 ∧
    ∀ s, diluent_dict data pop s =
      (∑ g ∈ speciesFrames data s, diluent_by_frame data pop s g) /
        ((speciesFrames data s).card : ℚ) := by
  constructor
  · have hterm : ∀ fs ∈ (dilKeys data).filter fun fs => fs.1 = f,
        diluent_by_frame data pop fs.2 fs.1 =
          (diluent_solvents data pop fs : ℚ) / (diluentFrameTotal data pop f : ℚ) := by
      intro fs hfs
      obtain ⟨f1, s1⟩ := fs
      have hf1 : f1 = f := (Finset.mem_filter.mp hfs).2
      subst hf1
      rfl
    rw [Finset.sum_congr rfl hterm, ← Finset.sum_div, ← Int.cast_sum]
    exact div_self (Int.cast_ne_zero.mpr h)
  · intro s
    rfl

/-- Witness for C5 on the concrete table `exData2` and populations
`exPop`: frame 0 has diluent counts 2 (of `A`) and 4 (of `B`), total 6,
and the two fractions sum to 1. -/
theorem diluent_fractions_sum_to_one_witness :
    diluentFrameTotal exData2 exPop 0 ≠ 0 ∧
      (∑ fs ∈ (dilKeys exData2).filter fun fs => fs.1 = 0,
        diluent_by_frame exData2 exPop fs.2 fs.1) = 1 :=
  ⟨by decide, (diluent_fractions_sum_to_one exData2 exPop 0 (by decide)).1⟩

/-- C6: for a realised species `s` with nonzero population,
`fraction_free_solvents` at `s` is 1 minus the number of distinct
`(frame, residue)` coordinating groups of `s` divided by `n_frames` and
then by the population of `s`; equivalently it reconstructs to 1 with the
coordinated fraction (exactly, so certainly within floating tolerance). -/
theorem free_solvent_fraction_reconstructs (data : List Row) (n_frames : ℕ)
    (pop : String → ℤ) (s : String) (_hs : s ∈ speciesOf data) (_hpop : pop s ≠ 0) :
    fraction_free_solvents data n_frames pop s =
      1 - (coordResidueFrames data s : ℚ) / ((n_frames : ℚ) * (pop s : ℚ)) ∧
    fraction_free_solvents data n_frames pop s +
      (coordResidueFrames data s : ℚ) / ((n_frames : ℚ) * (pop s : ℚ)) = 1 := by
  have h1 : fraction_free_solvents data n_frames pop s =
      1 - (coordResidueFrames data s : ℚ) / ((n_frames : ℚ) * (pop s : ℚ)) := by
    unfold fraction_free_solvents
    rw [totals_eq, div_div]
  exact ⟨h1, by rw [h1]; ring⟩

/-- Witness for C6 on the concrete table `exData` and populations `exPop`:
species `A` is realised with nonzero population, and its free fraction
plus its coordinated fraction is 1. -/
theorem free_solvent_fraction_reconstructs_witness :
    "A" ∈ speciesOf exData ∧ exPop "A" ≠ 0 ∧
      fraction_free_solvents exData 1 exPop "A" +
        (coordResidueFrames exData "A" : ℚ) / ((1 : ℚ) * (exPop "A" : ℚ)) = 1 :=
  ⟨by decide, by decide,
   (free_solvent_fraction_reconstructs exData 1 exPop "A" (by decide) (by decide)).2⟩

/-- C7: with the default tolerance 0.005, `coordinating_atoms` retains
exactly the realised `(species, atom_type)` pairs whose fraction of that
species' coordinating rows strictly exceeds the tolerance, and no pair
whose fraction is at or below it. -/
theorem coordinating_atoms_strict_tolerance (data : List Row) (types : ℕ → String)
    (st : String × String) :
    st ∈ coordinating_atoms data types default_tol ↔
      st ∈ typeKeys data types ∧
        ((data.filter fun r => r.solvent_name = st.1 ∧ types r.atom_ix = st.2).length : ℚ) /
            ((data.filter fun r => r.solvent_name = st.1).length : ℚ) > default_tol := by
  have hp : type_percents data types st =
      ((data.filter fun r => r.solvent_name = st.1 ∧ types r.atom_ix = st.2).length : ℚ) /
        ((data.filter fun r => r.solvent_name = st.1).length : ℚ) := by
    unfold type_percents
    rw [type_counts_eq, solvent_counts_eq]
  unfold coordinating_atoms
  rw [Finset.mem_filter, hp]

/-- C8: on a consistent event table (its distinct frames fit in
`n_frames` and its distinct solute atoms fit in `n_solutes`, the
externally supplied invariants), every species' pairing fraction lies in
[0, 1] and its mean coordination number is nonnegative. -/
theorem statistic_bounds (data : List Row) (n_frames n_solutes : ℕ) (s : String)
    (hnf : 1 ≤ n_frames) (hns : 1 ≤ n_solutes)
    (hframes : (groupKeys data Row.frame).card ≤ n_frames)
    (hatoms : (groupKeys data Row.solute_atom).card ≤ n_solutes) :
    0 ≤ pairing_dict data n_frames n_solutes s ∧
      pairing_dict data n_frames n_solutes s ≤ 1 ∧
      0 ≤ cn_dict data n_frames n_solutes s := by
  have hnfQ : (0 : ℚ) < n_frames := by exact_mod_cast Nat.lt_of_lt_of_le Nat.zero_lt_one hnf
  have hnsQ : (0 : ℚ) < n_solutes := by exact_mod_cast Nat.lt_of_lt_of_le Nat.zero_lt_one hns
  have hnonneg : 0 ≤ pairing_dict data n_frames n_solutes s := by
    apply Finset.sum_nonneg
    intro sf _
    unfold pairing_normalized pairing_series
    apply div_nonneg _ (le_of_lt hnfQ)
    apply div_nonneg _ (le_of_lt hnsQ)
    apply Finset.sum_nonneg
    intro k _
    split <;> norm_num
  have hseries_le : ∀ sf ∈ (pairSeriesKeys data).filter fun sf => sf.1 = s,
      pairing_series data n_solutes sf ≤ 1 := by
    intro sf _
    unfold pairing_series
    rw [div_le_one hnsQ]
    calc (∑ k ∈ (pairKeys data).filter fun k => snf k = sf,
            if groupSize data eventKey k ≠ 0 then (1 : ℚ) else 0)
        ≤ ∑ _k ∈ (pairKeys data).filter fun k => snf k = sf, (1 : ℚ) :=
          Finset.sum_le_sum fun k _ => by split <;> norm_num
      _ = (((pairKeys data).filter fun k => snf k = sf).card : ℚ) := by
          rw [Finset.sum_const, nsmul_eq_mul, mul_one]
      _ ≤ ((groupKeys data Row.solute_atom).card : ℚ) := by
          have hcard : ((pairKeys data).filter fun k => snf k = sf).card ≤
              (groupKeys data Row.solute_atom).card := by
            apply Finset.card_le_card_of_injOn fun k => k.2.1
            · intro k hk
              have hk1 := (Finset.mem_filter.mp hk).1
              simp only [pairKeys, groupKeys, List.mem_toFinset, List.mem_map] at hk1 ⊢
              obtain ⟨r, hr, rfl⟩ := hk1
              exact ⟨r, hr, rfl⟩
            · intro k hk k' hk' heq
              simp only [Finset.mem_coe, Finset.mem_filter] at hk hk'
              have h1 := hk.2
              have h2 := hk'.2
              simp only [snf, Prod.ext_iff] at h1 h2
              simp only [Prod.ext_iff]
              exact ⟨h1.2.trans h2.2.symm, heq, h1.1.trans h2.1.symm⟩
          exact_mod_cast hcard
      _ ≤ (n_solutes : ℚ) := by exact_mod_cast hatoms
  have hK : ((pairSeriesKeys data).filter fun sf => sf.1 = s).card ≤ n_frames := by
    have h1 : ((pairSeriesKeys data).filter fun sf => sf.1 = s).card ≤
        (groupKeys data Row.frame).card := by
      apply Finset.card_le_card_of_injOn fun sf => sf.2
      · intro sf hsf
        have hsf1 := (Finset.mem_filter.mp hsf).1
        simp only [pairSeriesKeys, pairKeys, Finset.mem_image, groupKeys,
          List.mem_toFinset, List.mem_map] at hsf1
        obtain ⟨k, ⟨r, hr, rfl⟩, rfl⟩ := hsf1
        simp only [groupKeys, List.mem_toFinset, List.mem_map]
        exact ⟨r, hr, rfl⟩
      · intro sf hsf sf' hsf' heq
        simp only [Finset.mem_coe, Finset.mem_filter] at hsf hsf'
        simp only [Prod.ext_iff]
        exact ⟨hsf.2.trans hsf'.2.symm, heq⟩
    exact le_trans h1 hframes
  have hle1 : pairing_dict data n_frames n_solutes s ≤ 1 := by
    calc pairing_dict data n_frames n_solutes s
        ≤ ∑ _sf ∈ (pairSeriesKeys data).filter fun sf => sf.1 = s, 1 / (n_frames : ℚ) := by
          unfold pairing_dict pairing_normalized
          exact Finset.sum_le_sum fun sf hsf =>
            (div_le_div_iff_of_pos_right hnfQ).mpr (hseries_le sf hsf)
      _ = (((pairSeriesKeys data).filter fun sf => sf.1 = s).card : ℚ) *
            (1 / (n_frames : ℚ)) := by
          rw [Finset.sum_const, nsmul_eq_mul]
      _ ≤ (n_frames : ℚ) * (1 / (n_frames : ℚ)) := by
          apply mul_le_mul_of_nonneg_right _ (by positivity)
          exact_mod_cast hK
      _ = 1 := by field_simp
  have hcn : 0 ≤ cn_dict data n_frames n_solutes s := by
    rw [cn_dict_eq]
    positivity
  exact ⟨hnonneg, hle1, hcn⟩

/-- Witness for C8 on the concrete table `exData` with `n_frames = 1`,
`n_solutes = 2`. -/
theorem statistic_bounds_witness :
    1 ≤ 1 ∧ 1 ≤ 2 ∧ (groupKeys exData Row.frame).card ≤ 1 ∧
      (groupKeys exData Row.solute_atom).card ≤ 2 ∧
      (0 ≤ pairing_dict exData 1 2 "A" ∧ pairing_dict exData 1 2 "A" ≤ 1 ∧
        0 ≤ cn_dict exData 1 2 "A") :=
  ⟨by decide, by decide, by decide, by decide,
   statistic_bounds exData 1 2 "A" (by decide) (by decide) (by decide) (by decide)⟩

/-- C9: neither construction mutates the input event table.  In the
explicit dataframe heap, constructing `Coordination` (whose only write is
the `atom_type` column assignment, aimed at the fresh `reset_index` copy)
and constructing `Pairing` (which only groups and aggregates) both leave
the `solvation_data` frame at address 0 unchanged. -/
theorem construction_preserves_solvation_data (data : List Row) (types : ℕ → String) :
    readFrame (coordinationConstructHeap data types) 0 = (data.map fun r => (r, none)) ∧
    readFrame (pairingConstructHeap data) 0 = (data.map fun r => (r, none)) :=
  ⟨rfl, rfl⟩

/-- C10: on the event table whose columns are exactly those of
`_column_names.py`, every label `Pairing` groups by or selects resolves,
while `Coordination._mean_cn`'s hardcoded labels `solvated_atom` and
`res_name` do not exist, so its groupby raises a `KeyError`; no table
with exactly this schema satisfies both modules' grouping keys. -/
theorem column_label_mismatch :
    groupbyKeyCheck solvationDataColumns fractionCoordinatedGroupLabels = Except.ok () ∧
    groupbyKeyCheck solvationDataColumns fractionFreeGroupLabels = Except.ok () ∧
    groupbyKeyCheck solvationDataColumns diluentGroupLabels = Except.ok () ∧
    groupbyKeyCheck solvationDataColumns pairingSelectedLabels = Except.ok () ∧
    groupbyKeyCheck solvationDataColumns meanCnGroupLabels = Except.error "KeyError" ∧
    "solvated_atom" ∉ solvationDataColumns ∧ "res_name" ∉ solvationDataColumns :=
  ⟨rfl, rfl, rfl, rfl, rfl, by decide, by decide⟩

end SolvationAnalysis
